import Mathlib

/-!
Verification of the parallel Monte Carlo option-pricing engine
(src/options/monte_carlo_parallel.py, src/options/variance_reduction.py,
src/options/european_options.py, src/utils/validation.py).

Modelling conventions.  Real-valued quantities are rationals.  The two
transcendental functions used by the code, `np.exp` and `np.sqrt`, are
parameters of the model (`E sq : ℚ → ℚ`); theorems that need their
analytic properties (positivity, `exp (a+b) = exp a * exp b`,
`sqrt T * sqrt T = T`) take them as explicit hypotheses, all of which hold
for the real exponential and square root.  NumPy's seeded random streams
are a parameter `g : ℕ → ℕ → ℚ` giving, for each seed, the stream of
standard-normal draws produced after `np.random.seed seed`; the global
NumPy RNG state is modelled as a pair (current seed, number of draws
consumed since seeding).
-/

namespace OptionMC

/-- The `option_type` string dispatch of `_simulate_batch`. -/
inductive OptionType
  | call
  | put
deriving DecidableEq

/-- Terminal GBM price of one draw `z`
(monte_carlo_parallel.py line 45: `ST = S0*exp((r-0.5*sigma**2)*T + sigma*sqrt(T)*Z)`). -/
def terminalPrice (E sq : ℚ → ℚ) (S0 r sigma T z : ℚ) : ℚ :=
  S0 * E ((r - sigma ^ 2 / 2) * T + sigma * sq T * z)

/-- Undiscounted payoff (monte_carlo_parallel.py lines 48-51). -/
def payoff (ot : OptionType) (K ST : ℚ) : ℚ :=
  match ot with
  | .call => max (ST - K) 0
  | .put => max (K - ST) 0

/-- Discounted payoff of one draw, as the spec's sections 4.1 and 4.2 describe it:
`exp (-r*T) * max (S_T - K) 0` (call) resp. `exp (-r*T) * max (K - S_T) 0` (put)
with `S_T = S0 * exp ((r - sigma^2/2)*T + sigma*sqrt T*z)`. -/
def specDiscountedPayoff (E sq : ℚ → ℚ) (S0 r sigma T K : ℚ) (ot : OptionType) (z : ℚ) : ℚ :=
  E (-(r * T)) * payoff ot K (terminalPrice E sq S0 r sigma T z)

/-- Model of `_simulate_batch` (monte_carlo_parallel.py lines 21-60), vectorized exactly as the
code: draw `batch_size` normals from the given seed, map them to terminal prices,
payoffs, discounted payoffs, and return (sum, sum of squares, batch_size). -/
def simulate_batch (E sq : ℚ → ℚ) (g : ℕ → ℕ → ℚ) (batch_size : ℕ)
    (S0 r sigma T K : ℚ) (ot : OptionType) (seed : ℕ) : ℚ × ℚ × ℕ :=
  let Z := (List.range batch_size).map (g seed)
  let ST := Z.map (fun z => S0 * E ((r - sigma ^ 2 / 2) * T + sigma * sq T * z))
  let payoffs := ST.map (fun s => payoff ot K s)
  let discounted := payoffs.map (fun p => E (-(r * T)) * p)
  (discounted.sum, (discounted.map (fun x => x ^ 2)).sum, batch_size)

/-- Batch-size partition of `price_european_call_parallel` (lines 112-115):
`batch_size = n_paths // n_workers`, one entry per worker, remainder added to
the last entry (`batches[-1] += n_paths - sum(batches)`). -/
def makeBatches (n_paths n_workers : ℕ) : List ℕ :=
  let batch_size := n_paths / n_workers
  let batches := List.replicate n_workers batch_size
  batches.set (n_workers - 1) (batch_size + (n_paths - batches.sum))

/-- Aggregated `total_sum = sum(r[0] for r in results)` (line 132). -/
def total_sum (results : List (ℚ × ℚ × ℕ)) : ℚ :=
  (results.map (fun t => t.1)).sum

/-- Aggregated `total_sum_sq = sum(r[1] for r in results)` (line 133). -/
def total_sum_sq (results : List (ℚ × ℚ × ℕ)) : ℚ :=
  (results.map (fun t => t.2.1)).sum

/-- Aggregated `total_count = sum(r[2] for r in results)` (line 134). -/
def total_count (results : List (ℚ × ℚ × ℕ)) : ℕ :=
  (results.map (fun t => t.2.2)).sum

/-- Aggregation of batch results into (price, standard error)
(monte_carlo_parallel.py lines 131-143). -/
def aggregate (sq : ℚ → ℚ) (results : List (ℚ × ℚ × ℕ)) : ℚ × ℚ :=
  let price := total_sum results / (total_count results : ℚ)
  let variance := total_sum_sq results / (total_count results : ℚ) - price ^ 2
  (price, sq (variance / (total_count results : ℚ)))

/-- Error cases of src/utils/validation.py, one constructor per `raise` site
reachable from the parallel pricers. -/
inductive ValidationError
  | S0NotPositive
  | KNotPositive
  | rNegative
  | sigmaNotPositive
  | TNotPositive
  | sigmaTooHigh
  | rTooHigh
  | TTooLong
  | nPathsTooSmall
  | nStepsTooSmall
  | nPathsTooLarge
  | nStepsTooLarge
deriving DecidableEq

/-- Model of `validate_option_params` (validation.py lines 74-115), checks in source order. -/
def validate_option_params (S0 K r sigma T : ℚ) : Option ValidationError :=
  if S0 ≤ 0 then some .S0NotPositive
  else if K ≤ 0 then some .KNotPositive
  else if r < 0 then some .rNegative
  else if sigma ≤ 0 then some .sigmaNotPositive
  else if T ≤ 0 then some .TNotPositive
  else if 5 < sigma then some .sigmaTooHigh
  else if 1 < r then some .rTooHigh
  else if 30 < T then some .TTooLong
  else none

/-- Model of `validate_monte_carlo_params` (validation.py lines 235-266), checks in source
order; `n_paths` and `n_steps` are naturals, so the `isinstance(_, int)` checks
are satisfied by typing. -/
def validate_monte_carlo_params (n_paths n_steps : ℕ) : Option ValidationError :=
  if n_paths < 100 then some .nPathsTooSmall
  else if n_steps < 10 then some .nStepsTooSmall
  else if 10000000 < n_paths then some .nPathsTooLarge
  else if 10000 < n_steps then some .nStepsTooLarge
  else none

/-- The parameters of `_simulate_batch` (monte_carlo_parallel.py line 21), in
positional order. -/
inductive BatchParam
  | batch_size
  | S0
  | r
  | sigma
  | T
  | K
  | option_type
  | seed
deriving DecidableEq

/-- Positional signature of `_simulate_batch` (line 21). -/
def simulate_batch_sig : List BatchParam :=
  [.batch_size, .S0, .r, .sigma, .T, .K, .option_type, .seed]

/-- The keyword arguments fixed by the `partial` at lines 118-121:
`worker = partial(_simulate_batch, S0=S0, r=r, sigma=sigma, T=T, K=K,
option_type=...)`. -/
def worker_keywords : List BatchParam :=
  [.S0, .r, .sigma, .T, .K, .option_type]

/-- Python call binding for invoking a `partial` with fixed keywords on
`n_positional` positional arguments: each positional argument binds to the next
parameter of the underlying signature in order, and if any of those parameters
is also supplied as a keyword the call raises
`TypeError: got multiple values for argument ...`.  Returns true exactly when
the call binds without such a conflict. -/
def positional_binding_ok (sig keywords : List BatchParam) (n_positional : ℕ) : Bool :=
  (sig.take n_positional).all (fun p => !keywords.contains p)

/-- Errors a parallel pricing call can raise: a ValidationError from the input
checks, or the TypeError raised inside every worker when `pool.starmap` passes
the batch seed as a second positional argument that collides with the
`partial`-bound `S0`. -/
inductive MCError
  | validation (e : ValidationError)
  | typeError
deriving DecidableEq

/-- Common body of `price_european_call_parallel` and `price_european_put_parallel`
(monte_carlo_parallel.py lines 63-143 and 146-224, which differ only in the
`option_type` passed to the worker): validate, partition into batches (lines
112-115, executed), then dispatch `pool.starmap(worker, [(batch, i * 12345) ...])`
(lines 124-129).  Each dispatch calls `worker(batch, i * 12345)`: the seed binds
positionally to `_simulate_batch`'s second parameter `S0`, which the `partial`
already fixes by keyword, so every worker raises
`TypeError: got multiple values for argument S0` and the call never returns a
price (the repo's test suite skips the parallel test citing this known issue).
The guarded branch records the simulation and aggregation the dispatch would
perform if the binding were conflict-free; it is dead code here, as in the
program. -/
def price_european_parallel (ot : OptionType) (E sq : ℚ → ℚ) (g : ℕ → ℕ → ℚ)
    (S0 K r sigma T : ℚ) (n_paths n_workers : ℕ) : Except MCError (ℚ × ℚ) :=
  match validate_option_params S0 K r sigma T with
  | some e => .error (.validation e)
  | none =>
    match validate_monte_carlo_params n_paths 252 with
    | some e => .error (.validation e)
    | none =>
      let batches := makeBatches n_paths n_workers
      if positional_binding_ok simulate_batch_sig worker_keywords 2 then
        let results := batches.enum.map
          (fun p => simulate_batch E sq g p.2 S0 r sigma T K ot (p.1 * 12345))
        .ok (aggregate sq results)
      else
        .error .typeError

/-- Model of `price_european_call_parallel` (monte_carlo_parallel.py lines
63-143); on every input that passes validation the real function raises the
worker TypeError and never returns (price, standard error). -/
def price_european_call_parallel (E sq : ℚ → ℚ) (g : ℕ → ℕ → ℚ)
    (S0 K r sigma T : ℚ) (n_paths n_workers : ℕ) : Except MCError (ℚ × ℚ) :=
  price_european_parallel .call E sq g S0 K r sigma T n_paths n_workers

/-- Model of `price_european_put_parallel` (monte_carlo_parallel.py lines
146-224); on every input that passes validation the real function raises the
worker TypeError and never returns (price, standard error). -/
def price_european_put_parallel (E sq : ℚ → ℚ) (g : ℕ → ℕ → ℚ)
    (S0 K r sigma T : ℚ) (n_paths n_workers : ℕ) : Except MCError (ℚ × ℚ) :=
  price_european_parallel .put E sq g S0 K r sigma T n_paths n_workers

/-- The two positional arguments of the starmap dispatch collide with the
keyword-bound `S0`: the second positional parameter of `_simulate_batch` is
`S0`, which `worker_keywords` already contains. -/
theorem worker_binding_conflict :
    positional_binding_ok simulate_batch_sig worker_keywords 2 = false := rfl

/-- Every input that passes both validations makes the parallel pricer raise
the worker TypeError: no batch simulates and no price is returned. -/
theorem pricer_typeError_of_valid (ot : OptionType) (E sq : ℚ → ℚ) (g : ℕ → ℕ → ℚ)
    (S0 K r sigma T : ℚ) (n_paths n_workers : ℕ)
    (h1 : validate_option_params S0 K r sigma T = none)
    (h2 : validate_monte_carlo_params n_paths 252 = none) :
    price_european_parallel ot E sq g S0 K r sigma T n_paths n_workers =
      Except.error MCError.typeError := by
  unfold price_european_parallel
  rw [h1, h2]
  rfl

/-! Model of the serial pricer and the variance-reduction module.  These
functions use NumPy's global RNG, modelled as explicit state threading. -/

/-- Global NumPy RNG state: (current seed, number of draws consumed since seeding). -/
abbrev RState := ℕ × ℕ

/-- Model of `np.random.seed s`: resets the global stream, discarding the previous state. -/
def npSeed (s : ℕ) (_st : RState) : RState := (s, 0)

/-- Model of `np.random.standard_normal k` on the global stream `g`. -/
def npDraw (g : ℕ → ℕ → ℚ) (k : ℕ) (st : RState) : List ℚ × RState :=
  ((List.range k).map (fun i => g st.1 (st.2 + i)), (st.1, st.2 + k))

/-- Model of `np.mean`. -/
def npMean (l : List ℚ) : ℚ := l.sum / (l.length : ℚ)

/-- Model of `np.var` (default `ddof = 0`). -/
def npVar (l : List ℚ) : ℚ :=
  ((l.map (fun x => (x - npMean l) ^ 2)).sum) / (l.length : ℚ)

/-- Model of `np.std`: square root of `np.var`. -/
def npStd (sq : ℚ → ℚ) (l : List ℚ) : ℚ := sq (npVar l)

/-- Off-diagonal entry of `np.cov(x, y)` (default `ddof = 1`). -/
def npCov (x y : List ℚ) : ℚ :=
  ((x.zip y).map (fun p => (p.1 - npMean x) * (p.2 - npMean y))).sum /
    ((x.length : ℚ) - 1)

/-- A Python value returned by a pricing routine: a bare float or a pair of floats. -/
inductive PyVal
  | float (x : ℚ)
  | tuple2 (x y : ℚ)
deriving DecidableEq

/-- Python-level failures of the variance-reduction module, together with the
distinct NumericalDegeneracy error the spec's error taxonomy calls for
(spec section 7); the source never raises the latter. -/
inductive PyErr
  | typeError
  | degeneracy
deriving DecidableEq

/-- Python tuple destructuring `a, b = v`: unpacking a bare float raises TypeError. -/
def unpackPair : PyVal → Except PyErr (ℚ × ℚ)
  | .float _ => .error .typeError
  | .tuple2 a b => .ok (a, b)

/-- Terminal value of one path of `simulate_gbm` (gbm.py lines 30-44): the
exact-solution one-step recurrence folded over the path's scaled normal
increments `dW`. -/
def gbm_terminal (E : ℚ → ℚ) (S0 mu sigma dt : ℚ) (dWs : List ℚ) : ℚ :=
  dWs.foldl (fun s dw => s * E ((mu - sigma ^ 2 / 2) * dt + sigma * dw)) S0

/-- Model of `price_european_call` (european_options.py lines 8-44): `dt = T/n_steps`,
full-path GBM simulation with `int (T/dt)` steps per path (`np.random.normal`
with scale `sqrt dt` consumes `n_paths * steps` draws row-major), discounted
mean of terminal call payoffs.  Returns a SINGLE float (line 44). -/
def price_european_call (E sq : ℚ → ℚ) (g : ℕ → ℕ → ℚ)
    (S0 K r sigma T : ℚ) (n_paths n_steps : ℕ) (st : RState) : PyVal × RState :=
  let dt := T / (n_steps : ℚ)
  let m := (⌊T / dt⌋).toNat
  let (dWflat, st1) := npDraw g (n_paths * m) st
  let terminals := (List.range n_paths).map
    (fun p => gbm_terminal E S0 r sigma dt
      ((List.range m).map (fun k => sq dt * dWflat.getD (p * m + k) 0)))
  let payoffs := terminals.map (fun s => max (s - K) 0)
  let price := E (-(r * T)) * npMean payoffs
  (.float price, st1)

/-- Number of base draws contributing to the price of `antithetic_variates_call`:
line 25 draws `n_paths // 2` normals and each is used for exactly one
antithetic pair (two paths). -/
def antithetic_draws_used (n_paths : ℕ) : ℕ := 2 * (n_paths / 2)

/-- Estimation core of `antithetic_variates_call` (variance_reduction.py lines
22-40): seed 42, draw `n_paths // 2` normals, evaluate both legs of every
antithetic pair, average pairwise, return price and standard error. -/
def antithetic_core (E sq : ℚ → ℚ) (g : ℕ → ℕ → ℚ)
    (S0 K T r sigma : ℚ) (n_paths : ℕ) (st : RState) : (ℚ × ℚ) × RState :=
  let st1 := npSeed 42 st
  let p := npDraw g (n_paths / 2) st1
  let Z := p.1
  let ST_pos := Z.map (fun z => S0 * E ((r - sigma ^ 2 / 2) * T + sigma * sq T * z))
  let ST_neg := Z.map (fun z => S0 * E ((r - sigma ^ 2 / 2) * T + sigma * sq T * (-z)))
  let payoff_pos := ST_pos.map (fun s => max (s - K) 0)
  let payoff_neg := ST_neg.map (fun s => max (s - K) 0)
  let payoff_avg := (payoff_pos.zip payoff_neg).map (fun q => (q.1 + q.2) / 2)
  let price := E (-(r * T)) * npMean payoff_avg
  let std_error := E (-(r * T)) * npStd sq payoff_avg / sq ((payoff_avg.length : ℚ))
  ((price, std_error), p.2)

/-- Model of `antithetic_variates_call` (variance_reduction.py lines 13-47).  After the
estimation core, line 43 reseeds with 42 and line 44 runs
`_, std_mc = monte_carlo_call(S0, K, T, r, sigma, n_paths)`: `monte_carlo_call`
is `price_european_call`, whose positional parameters are
(S0, K, r, sigma, T, n_paths, n_steps), so the call site passes T as r, r as
sigma and sigma as T, and then destructures the returned float as a pair. -/
def antithetic_variates_call (E sq : ℚ → ℚ) (g : ℕ → ℕ → ℚ)
    (S0 K T r sigma : ℚ) (n_paths : ℕ) (st : RState) :
    Except PyErr (ℚ × ℚ × ℚ) × RState :=
  let c := antithetic_core E sq g S0 K T r sigma n_paths st
  let st3 := npSeed 42 c.2
  let b := price_european_call E sq g S0 K T r sigma n_paths 252 st3
  match unpackPair b.1 with
  | .error e => (.error e, b.2)
  | .ok pr => (.ok (c.1.1, c.1.2, (pr.2 / c.1.2) ^ 2), b.2)

/-- The terminal-price sample `ST` of `control_variates_call` (lines 59-63). -/
def control_ST (E sq : ℚ → ℚ) (g : ℕ → ℕ → ℚ)
    (S0 T r sigma : ℚ) (n_paths : ℕ) : List ℚ :=
  ((List.range n_paths).map (fun i => g 42 i)).map
    (fun z => S0 * E ((r - sigma ^ 2 / 2) * T + sigma * sq T * z))

/-- The control-variate variance `Var S_T` (`var_c = np.var(control)`, line 74). -/
def control_var_c (E sq : ℚ → ℚ) (g : ℕ → ℕ → ℚ)
    (S0 T r sigma : ℚ) (n_paths : ℕ) : ℚ :=
  npVar (control_ST E sq g S0 T r sigma n_paths)

/-- The control-variate coefficient `beta = cov_pc / var_c` (lines 73-75),
computed unconditionally; the source has no degeneracy check on `var_c`. -/
def control_beta (E sq : ℚ → ℚ) (g : ℕ → ℕ → ℚ)
    (S0 K T r sigma : ℚ) (n_paths : ℕ) : ℚ :=
  let ST := control_ST E sq g S0 T r sigma n_paths
  npCov (ST.map (fun s => max (s - K) 0)) ST / control_var_c E sq g S0 T r sigma n_paths

/-- Estimation core of `control_variates_call` (variance_reduction.py lines
59-82): seed 42, draw `n_paths` normals, adjust the payoff by
`beta * (control - E_control)`, return price and standard error. -/
def control_variates_core (E sq : ℚ → ℚ) (g : ℕ → ℕ → ℚ)
    (S0 K T r sigma : ℚ) (n_paths : ℕ) (st : RState) : (ℚ × ℚ) × RState :=
  let st1 := npSeed 42 st
  let p := npDraw g n_paths st1
  let ST := p.1.map (fun z => S0 * E ((r - sigma ^ 2 / 2) * T + sigma * sq T * z))
  let payoffL := ST.map (fun s => max (s - K) 0)
  let E_control := S0 * E (r * T)
  let beta := npCov payoffL ST / npVar ST
  let payoff_adjusted := (payoffL.zip ST).map (fun q => q.1 - beta * (q.2 - E_control))
  let price := E (-(r * T)) * npMean payoff_adjusted
  let std_error := E (-(r * T)) * npStd sq payoff_adjusted / sq ((n_paths : ℚ))
  ((price, std_error), p.2)

/-- Model of `control_variates_call` (variance_reduction.py lines 50-89), with the same
baseline-comparison tail as `antithetic_variates_call` (lines 85-87). -/
def control_variates_call (E sq : ℚ → ℚ) (g : ℕ → ℕ → ℚ)
    (S0 K T r sigma : ℚ) (n_paths : ℕ) (st : RState) :
    Except PyErr (ℚ × ℚ × ℚ) × RState :=
  let c := control_variates_core E sq g S0 K T r sigma n_paths st
  let st3 := npSeed 42 c.2
  let b := price_european_call E sq g S0 K T r sigma n_paths 252 st3
  match unpackPair b.1 with
  | .error e => (.error e, b.2)
  | .ok pr => (.ok (c.1.1, c.1.2, (pr.2 / c.1.2) ^ 2), b.2)

/-- Per-draw weighted payoff of `importance_sampling_call` (lines 104-115):
the terminal price is sampled under the shifted drift
`mu_tilde = (r - sigma^2/2) + shift*sigma` and the payoff is weighted by the
likelihood ratio `exp (-shift*sqrt T*z - shift^2*T/2)`. -/
def importance_weighted_payoff (E sq : ℚ → ℚ) (S0 K T r sigma shift z : ℚ) : ℚ :=
  max (S0 * E ((r - sigma ^ 2 / 2 + shift * sigma) * T + sigma * sq T * z) - K) 0 *
    E (-(shift * sq T * z) - shift ^ 2 * T / 2)

/-- Model of `importance_sampling_call` (variance_reduction.py lines 92-120): seed 42,
draw `n_paths` normals, average the weighted payoffs, discount. -/
def importance_sampling_call (E sq : ℚ → ℚ) (g : ℕ → ℕ → ℚ)
    (S0 K T r sigma : ℚ) (n_paths : ℕ) (shift : ℚ) (st : RState) :
    (ℚ × ℚ) × RState :=
  let st1 := npSeed 42 st
  let p := npDraw g n_paths st1
  let payoffL := p.1.map (fun z => importance_weighted_payoff E sq S0 K T r sigma shift z)
  let price := E (-(r * T)) * npMean payoffL
  let std_error := E (-(r * T)) * npStd sq payoffL / sq ((n_paths : ℚ))
  ((price, std_error), p.2)

/-- Ratio of standard-normal densities `φ (z + a) / φ z`; the common
normalization constants cancel, leaving `exp (-(z+a)^2/2) / exp (-z^2/2)`. -/
def densityQuotient (E : ℚ → ℚ) (z a : ℚ) : ℚ :=
  E (-((z + a) ^ 2 / 2)) / E (-(z ^ 2 / 2))

/-! Concrete instantiations of the model parameters, used by witnesses and
counterexamples. -/

/-- A trivial stand-in for `exp` (a homomorphism from + to *, never zero). -/
def Eone : ℚ → ℚ := fun _ => 1

/-- A stand-in for `sqrt` satisfying `sqTwo 4 * sqTwo 4 = 4`. -/
def sqTwo : ℚ → ℚ := fun _ => 2

/-- A degenerate RNG: every stream is constantly zero. -/
def gzero : ℕ → ℕ → ℚ := fun _ _ => 0

/-! Helper lemmas. -/

/-- Since `price_european_call` always returns a bare float, the destructuring
`_, std_mc = monte_carlo_call(...)` in variance_reduction.py raises TypeError
on every input: `antithetic_variates_call` never returns its triple. -/
theorem antithetic_call_typeError (E sq : ℚ → ℚ) (g : ℕ → ℕ → ℚ)
    (S0 K T r sigma : ℚ) (n_paths : ℕ) (st : RState) :
    (antithetic_variates_call E sq g S0 K T r sigma n_paths st).1 =
      Except.error PyErr.typeError := rfl

/-- Same failure for `control_variates_call` (line 86 of variance_reduction.py). -/
theorem control_call_typeError (E sq : ℚ → ℚ) (g : ℕ → ℕ → ℚ)
    (S0 K T r sigma : ℚ) (n_paths : ℕ) (st : RState) :
    (control_variates_call E sq g S0 K T r sigma n_paths st).1 =
      Except.error PyErr.typeError := rfl

/-- The function `antithetic_variates_call` does not depend on the incoming RNG state: it
reseeds with the constant 42 as its first action. -/
theorem antithetic_state_independent (E sq : ℚ → ℚ) (g : ℕ → ℕ → ℚ)
    (S0 K T r sigma : ℚ) (n_paths : ℕ) (st st' : RState) :
    antithetic_variates_call E sq g S0 K T r sigma n_paths st =
      antithetic_variates_call E sq g S0 K T r sigma n_paths st' := rfl

/-- The core `antithetic_core` depends on `n_paths` only through `n_paths / 2`. -/
theorem antithetic_core_div (E sq : ℚ → ℚ) (g : ℕ → ℕ → ℚ)
    (S0 K T r sigma : ℚ) (n m : ℕ) (h : n / 2 = m / 2) (st : RState) :
    antithetic_core E sq g S0 K T r sigma n st =
      antithetic_core E sq g S0 K T r sigma m st := by
  unfold antithetic_core
  rw [h]

/-- Decomposition: `simulate_batch` equals the per-draw closed form: its three components are
the sum, the sum of squares and the count of the discounted payoffs
`specDiscountedPayoff` evaluated at the seed's successive normal draws. -/
theorem simulate_batch_sums (E sq : ℚ → ℚ) (g : ℕ → ℕ → ℚ) (b : ℕ)
    (S0 r sigma T K : ℚ) (ot : OptionType) (seed : ℕ) :
    simulate_batch E sq g b S0 r sigma T K ot seed =
      (((List.range b).map
          (fun i => specDiscountedPayoff E sq S0 r sigma T K ot (g seed i))).sum,
       ((List.range b).map
          (fun i => specDiscountedPayoff E sq S0 r sigma T K ot (g seed i) ^ 2)).sum,
       b) := by
  unfold simulate_batch specDiscountedPayoff terminalPrice
  simp [List.map_map, Function.comp_def]

/-- C3.  For every batch size, option parameters, option kind and seed,
`_simulate_batch` returns exactly (sum of discounted payoffs, sum of squared
discounted payoffs, batch size), where the i-th discounted payoff is
`exp (-r*T) * max (S_T - K) 0` (call) resp. `exp (-r*T) * max (K - S_T) 0`
(put) with `S_T = S0 * exp ((r - sigma^2/2)*T + sigma*sqrt T * Z_i)` and `Z_i`
the seed's i-th standard-normal draw. -/
theorem simulate_batch_meets_spec (E sq : ℚ → ℚ) (g : ℕ → ℕ → ℚ) (b : ℕ)
    (S0 r sigma T K : ℚ) (ot : OptionType) (seed : ℕ) :
    simulate_batch E sq g b S0 r sigma T K ot seed =
      (((List.range b).map
          (fun i => specDiscountedPayoff E sq S0 r sigma T K ot (g seed i))).sum,
       ((List.range b).map
          (fun i => specDiscountedPayoff E sq S0 r sigma T K ot (g seed i) ^ 2)).sum,
       b) :=
  simulate_batch_sums E sq g b S0 r sigma T K ot seed

/-- Setting the last entry of a constant list appends it after the (shorter)
constant prefix. -/
theorem replicate_set_last (w : ℕ) (bs v : ℕ) :
    (List.replicate (w + 1) bs).set w v = List.replicate w bs ++ [v] := by
  induction w with
  | zero => rfl
  | succ n ih =>
    rw [List.replicate_succ, List.set_cons_succ, ih]
    rfl

/-- Closed form of the batch partition: `n_workers - 1` batches of size
`n_paths / n_workers`, and a last batch absorbing the remainder. -/
theorem makeBatches_eq (n_paths n_workers : ℕ) (hw : 1 ≤ n_workers) :
    makeBatches n_paths n_workers =
      List.replicate (n_workers - 1) (n_paths / n_workers) ++
        [n_paths / n_workers + n_paths % n_workers] := by
  obtain ⟨w, rfl⟩ : ∃ w, n_workers = w + 1 := ⟨n_workers - 1, by omega⟩
  show (List.replicate (w + 1) (n_paths / (w + 1))).set ((w + 1) - 1)
      (n_paths / (w + 1) +
        (n_paths - (List.replicate (w + 1) (n_paths / (w + 1))).sum)) =
    List.replicate ((w + 1) - 1) (n_paths / (w + 1)) ++
      [n_paths / (w + 1) + n_paths % (w + 1)]
  have hs : (List.replicate (w + 1) (n_paths / (w + 1))).sum =
      (w + 1) * (n_paths / (w + 1)) := by
    rw [List.sum_replicate, smul_eq_mul]
  rw [hs]
  have hmod : n_paths - (w + 1) * (n_paths / (w + 1)) = n_paths % (w + 1) := by
    have := Nat.div_add_mod n_paths (w + 1)
    omega
  rw [hmod]
  simp only [Nat.add_sub_cancel]
  exact replicate_set_last w (n_paths / (w + 1)) (n_paths / (w + 1) + n_paths % (w + 1))

/-- C4.  The partition and seed derivation happen as the claim says — for every
`n_paths` and `n_workers = w + 1 ≥ 1` the pricer builds `n_workers` batches of
size `n_paths / n_workers` with the remainder added to the last (sizes summing
exactly to `n_paths`), and the per-batch seeds `i * 12345` are distinct — but
the claimed consequence fails on the code: `pool.starmap` passes each seed as a
second positional argument to the `partial`-bound worker, where it binds to
`S0`, already fixed by keyword, so every worker raises
`TypeError: got multiple values for argument S0` and the call returns no
(price, standard error) at all (the repo's test suite skips the parallel test
for this known issue).  The last conjunct evaluates the pricer at a concrete
input that passes validation. -/
theorem parallel_partition_but_seed_misbound (n_paths w : ℕ) :
    (makeBatches n_paths (w + 1)).length = w + 1 ∧
    (makeBatches n_paths (w + 1)).sum = n_paths ∧
    (∀ i, i + 1 < w + 1 →
      (makeBatches n_paths (w + 1)).getD i 0 = n_paths / (w + 1)) ∧
    (makeBatches n_paths (w + 1)).getD w 0 =
      n_paths / (w + 1) + n_paths % (w + 1) ∧
    (∀ i j : ℕ, i ≠ j → i * 12345 ≠ j * 12345) ∧
    positional_binding_ok simulate_batch_sig worker_keywords 2 = false ∧
    price_european_call_parallel Eone id gzero 100 100 (1 / 20) (1 / 5) 1 1000 4 =
      Except.error MCError.typeError := by
  rw [makeBatches_eq n_paths (w + 1) (by omega)]
  refine ⟨?_, ?_, ?_, ?_, ?_, worker_binding_conflict, ?_⟩
  · simp
  · rw [List.sum_append, List.sum_replicate, smul_eq_mul]
    have := Nat.div_add_mod n_paths (w + 1)
    simp only [Nat.add_sub_cancel, List.sum_cons, List.sum_nil, Nat.add_zero]
    calc w * (n_paths / (w + 1)) + (n_paths / (w + 1) + n_paths % (w + 1))
        = (w + 1) * (n_paths / (w + 1)) + n_paths % (w + 1) := by ring
      _ = n_paths := this
  · intro i hi
    have hlen : i < (List.replicate (w + 1 - 1) (n_paths / (w + 1))).length := by
      simp only [List.length_replicate]
      omega
    rw [List.getD_eq_getElem?_getD, List.getElem?_append, if_pos hlen,
      List.getElem?_replicate, if_pos (by omega : i < w + 1 - 1)]
    rfl
  · rw [List.getD_eq_getElem?_getD, List.getElem?_append_right
      (by simp : (List.replicate (w + 1 - 1) (n_paths / (w + 1))).length ≤ w)]
    simp
  · intro i j hij
    omega
  · exact pricer_typeError_of_valid .call Eone id gzero 100 100 (1 / 20) (1 / 5) 1 1000 4
      (by unfold validate_option_params; norm_num) (by decide)

/-- Validation of option parameters passes exactly when none of its eight checks fires. -/
theorem validate_option_params_none_iff (S0 K r sigma T : ℚ) :
    validate_option_params S0 K r sigma T = none ↔
      ¬(S0 ≤ 0 ∨ K ≤ 0 ∨ r < 0 ∨ sigma ≤ 0 ∨ T ≤ 0 ∨ 5 < sigma ∨ 1 < r ∨ 30 < T) := by
  unfold validate_option_params
  split_ifs <;> simp_all

/-- Validation of Monte Carlo parameters with the dummy `n_steps = 252` passes exactly
when `n_paths` is within the floor and ceiling. -/
theorem validate_mc_params_none_iff (n_paths : ℕ) :
    validate_monte_carlo_params n_paths 252 = none ↔
      ¬(n_paths < 100 ∨ 10000000 < n_paths) := by
  unfold validate_monte_carlo_params
  split_ifs <;> simp_all

/-- When some validation check fires the pricer returns that ValidationError
without ever consulting the RNG (no simulation work happens); when no check
fires the pricer does not raise a ValidationError (it raises the worker
TypeError instead, which is not a ValidationError). -/
theorem pricer_error_cases (ot : OptionType) (E sq : ℚ → ℚ) (g g' : ℕ → ℕ → ℚ)
    (S0 K r sigma T : ℚ) (n_paths n_workers : ℕ) :
    ((∃ e, price_european_parallel ot E sq g S0 K r sigma T n_paths n_workers =
        Except.error (MCError.validation e)) ↔
      (S0 ≤ 0 ∨ K ≤ 0 ∨ sigma ≤ 0 ∨ T ≤ 0 ∨ r < 0 ∨ 5 < sigma ∨ 1 < r ∨ 30 < T ∨
       n_paths < 100 ∨ 10000000 < n_paths)) ∧
    ((∃ e, price_european_parallel ot E sq g S0 K r sigma T n_paths n_workers =
        Except.error (MCError.validation e)) →
      price_european_parallel ot E sq g S0 K r sigma T n_paths n_workers =
        price_european_parallel ot E sq g' S0 K r sigma T n_paths n_workers) := by
  unfold price_european_parallel
  cases h1 : validate_option_params S0 K r sigma T with
  | some e =>
    have hne : validate_option_params S0 K r sigma T ≠ none := by
      rw [h1]
      exact fun hc => Option.noConfusion hc
    have hd : S0 ≤ 0 ∨ K ≤ 0 ∨ r < 0 ∨ sigma ≤ 0 ∨ T ≤ 0 ∨ 5 < sigma ∨ 1 < r ∨ 30 < T := by
      by_contra hc
      exact hne ((validate_option_params_none_iff S0 K r sigma T).mpr hc)
    exact ⟨⟨fun _ => by tauto, fun _ => ⟨e, rfl⟩⟩, fun _ => rfl⟩
  | none =>
    have h1' := (validate_option_params_none_iff S0 K r sigma T).mp h1
    cases h2 : validate_monte_carlo_params n_paths 252 with
    | some e =>
      have hne : validate_monte_carlo_params n_paths 252 ≠ none := by
        rw [h2]
        exact fun hc => Option.noConfusion hc
      have hd : n_paths < 100 ∨ 10000000 < n_paths := by
        by_contra hc
        exact hne ((validate_mc_params_none_iff n_paths).mpr hc)
      exact ⟨⟨fun _ => by tauto, fun _ => ⟨e, rfl⟩⟩, fun _ => rfl⟩
    | none =>
      have h2' := (validate_mc_params_none_iff n_paths).mp h2
      refine ⟨⟨?_, ?_⟩, ?_⟩
      · rintro ⟨e, he⟩
        rw [worker_binding_conflict] at he
        simp at he
      · intro hv
        tauto
      · rintro ⟨e, he⟩
        rw [worker_binding_conflict] at he
        simp at he

/-- C5.  `price_european_call_parallel` and `price_european_put_parallel` raise
a ValidationError if and only if one of the validation rules is violated
(S0 ≤ 0, K ≤ 0, sigma ≤ 0, T ≤ 0, r < 0, sigma > 5, r > 1, T > 30,
n_paths < 100 or n_paths > 10,000,000; path counts are naturals, so the
non-integer check cannot fire), and in the ValidationError case the result is
independent of the RNG stream: no simulation work happens before the error.
(On inputs that pass validation the calls raise the worker TypeError of the
seed misbinding instead — a different exception class, so the iff is
unaffected.) -/
theorem parallel_pricers_validate (E sq : ℚ → ℚ) (g g' : ℕ → ℕ → ℚ)
    (S0 K r sigma T : ℚ) (n_paths n_workers : ℕ) :
    ((∃ e, price_european_call_parallel E sq g S0 K r sigma T n_paths n_workers =
        Except.error (MCError.validation e)) ↔
      (S0 ≤ 0 ∨ K ≤ 0 ∨ sigma ≤ 0 ∨ T ≤ 0 ∨ r < 0 ∨ 5 < sigma ∨ 1 < r ∨ 30 < T ∨
       n_paths < 100 ∨ 10000000 < n_paths)) ∧
    ((∃ e, price_european_put_parallel E sq g S0 K r sigma T n_paths n_workers =
        Except.error (MCError.validation e)) ↔
      (S0 ≤ 0 ∨ K ≤ 0 ∨ sigma ≤ 0 ∨ T ≤ 0 ∨ r < 0 ∨ 5 < sigma ∨ 1 < r ∨ 30 < T ∨
       n_paths < 100 ∨ 10000000 < n_paths)) ∧
    ((∃ e, price_european_call_parallel E sq g S0 K r sigma T n_paths n_workers =
        Except.error (MCError.validation e)) →
      price_european_call_parallel E sq g S0 K r sigma T n_paths n_workers =
        price_european_call_parallel E sq g' S0 K r sigma T n_paths n_workers) ∧
    ((∃ e, price_european_put_parallel E sq g S0 K r sigma T n_paths n_workers =
        Except.error (MCError.validation e)) →
      price_european_put_parallel E sq g S0 K r sigma T n_paths n_workers =
        price_european_put_parallel E sq g' S0 K r sigma T n_paths n_workers) :=
  ⟨(pricer_error_cases .call E sq g g' S0 K r sigma T n_paths n_workers).1,
   (pricer_error_cases .put E sq g g' S0 K r sigma T n_paths n_workers).1,
   (pricer_error_cases .call E sq g g' S0 K r sigma T n_paths n_workers).2,
   (pricer_error_cases .put E sq g g' S0 K r sigma T n_paths n_workers).2⟩

/-- Witness for C5 at a concrete invalid input (S0 = -1 ≤ 0): the call pricer
raises a ValidationError. -/
theorem parallel_pricers_validate_witness :
    ∃ e, price_european_call_parallel Eone id gzero (-1) 100 0 1 1 1000 4 =
      Except.error (MCError.validation e) :=
  (parallel_pricers_validate Eone id gzero gzero (-1) 100 0 1 1 1000 4).1.mpr
    (Or.inl (by norm_num))

/-- Cauchy-Schwarz for list sums: the square of the sum is at most the length
times the sum of squares. -/
theorem list_sq_sum_le (l : List ℚ) :
    l.sum ^ 2 ≤ (l.length : ℚ) * (l.map (fun x => x ^ 2)).sum := by
  induction l with
  | nil => simp
  | cons x l ih =>
    have hQ : 0 ≤ (l.map (fun x => x ^ 2)).sum := by
      refine List.sum_nonneg (fun y hy => ?_)
      obtain ⟨z, _, rfl⟩ := List.mem_map.mp hy
      positivity
    simp only [List.sum_cons, List.length_cons, List.map_cons]
    push_cast
    rcases Nat.eq_zero_or_pos l.length with h0 | hpos
    · obtain rfl : l = [] := List.length_eq_zero.mp h0
      simp
    · have hn : (1 : ℚ) ≤ (l.length : ℚ) := by exact_mod_cast hpos
      nlinarith [sq_nonneg ((l.length : ℚ) * x - l.sum), ih, hQ, hn,
        mul_nonneg (Nat.cast_nonneg (α := ℚ) l.length) (sub_nonneg.mpr ih)]

/-- The per-draw discounted payoffs of one batch (size, seed) pair. -/
def batch_payoffs (E sq : ℚ → ℚ) (g : ℕ → ℕ → ℚ) (S0 r sigma T K : ℚ)
    (ot : OptionType) (p : ℕ × ℕ) : List ℚ :=
  (List.range p.1).map (fun i => specDiscountedPayoff E sq S0 r sigma T K ot (g p.2 i))

/-- The list of batch results the pool collects, for an arbitrary list of
(batch size, seed) pairs. -/
def sim_results (E sq : ℚ → ℚ) (g : ℕ → ℕ → ℚ) (S0 r sigma T K : ℚ)
    (ot : OptionType) (specs : List (ℕ × ℕ)) : List (ℚ × ℚ × ℕ) :=
  specs.map (fun p => simulate_batch E sq g p.1 S0 r sigma T K ot p.2)

/-- The aggregated totals of the collected batch results are the sum, the sum of
squares and the length of the flattened list of all per-draw payoffs. -/
theorem sim_results_totals (E sq : ℚ → ℚ) (g : ℕ → ℕ → ℚ) (S0 r sigma T K : ℚ)
    (ot : OptionType) (specs : List (ℕ × ℕ)) :
    total_sum (sim_results E sq g S0 r sigma T K ot specs) =
      ((specs.map (batch_payoffs E sq g S0 r sigma T K ot)).flatten).sum ∧
    total_sum_sq (sim_results E sq g S0 r sigma T K ot specs) =
      (((specs.map (batch_payoffs E sq g S0 r sigma T K ot)).flatten).map
        (fun x => x ^ 2)).sum ∧
    total_count (sim_results E sq g S0 r sigma T K ot specs) =
      ((specs.map (batch_payoffs E sq g S0 r sigma T K ot)).flatten).length := by
  refine ⟨?_, ?_, ?_⟩
  · unfold total_sum sim_results
    rw [List.sum_flatten, List.map_map, List.map_map]
    congr 1
    refine List.map_congr_left (fun p _ => ?_)
    simp only [Function.comp_apply, simulate_batch_sums, batch_payoffs]
  · unfold total_sum_sq sim_results
    rw [List.map_flatten, List.sum_flatten, List.map_map, List.map_map, List.map_map]
    congr 1
    refine List.map_congr_left (fun p _ => ?_)
    simp only [Function.comp_apply, simulate_batch_sums, batch_payoffs, List.map_map]
    congr 1
  · unfold total_count sim_results
    rw [List.length_flatten, List.map_map, List.map_map]
    congr 1
    refine List.map_congr_left (fun p _ => ?_)
    simp only [Function.comp_apply, simulate_batch_sums, batch_payoffs,
      List.length_map, List.length_range]

/-- Discounted payoffs are non-negative whenever the exponential stand-in is. -/
theorem specDiscountedPayoff_nonneg (E sq : ℚ → ℚ) (hE : ∀ x, 0 ≤ E x)
    (S0 r sigma T K : ℚ) (ot : OptionType) (z : ℚ) :
    0 ≤ specDiscountedPayoff E sq S0 r sigma T K ot z := by
  unfold specDiscountedPayoff
  refine mul_nonneg (hE _) ?_
  cases ot <;> exact le_max_right _ 0

/-- C6.  For every collection of batch results produced by `_simulate_batch`,
the aggregated price is non-negative, the second moment dominates the squared
price (`total_sq / total_n ≥ price ^ 2`, non-negative variance in exact
arithmetic), and the returned standard error is non-negative.  The hypotheses
on `E` and `sq` (non-negativity) hold for the real `exp` and `sqrt`. -/
theorem aggregate_positive (E sq : ℚ → ℚ) (g : ℕ → ℕ → ℚ)
    (S0 r sigma T K : ℚ) (ot : OptionType) (specs : List (ℕ × ℕ))
    (hE : ∀ x, 0 ≤ E x) (hsq : ∀ x, 0 ≤ x → 0 ≤ sq x)
    (hpos : 0 < total_count (sim_results E sq g S0 r sigma T K ot specs)) :
    0 ≤ (aggregate sq (sim_results E sq g S0 r sigma T K ot specs)).1 ∧
    (aggregate sq (sim_results E sq g S0 r sigma T K ot specs)).1 ^ 2 ≤
      total_sum_sq (sim_results E sq g S0 r sigma T K ot specs) /
        (total_count (sim_results E sq g S0 r sigma T K ot specs) : ℚ) ∧
    0 ≤ (aggregate sq (sim_results E sq g S0 r sigma T K ot specs)).2 := by
  obtain ⟨h1, h2, h3⟩ := sim_results_totals E sq g S0 r sigma T K ot specs
  have hL : ∀ x ∈ (specs.map (batch_payoffs E sq g S0 r sigma T K ot)).flatten, 0 ≤ x := by
    intro x hx
    obtain ⟨l, hl, hxl⟩ := List.mem_flatten.mp hx
    obtain ⟨p, _, rfl⟩ := List.mem_map.mp hl
    obtain ⟨i, _, rfl⟩ := List.mem_map.mp hxl
    exact specDiscountedPayoff_nonneg E sq hE S0 r sigma T K ot _
  have hsum : 0 ≤ total_sum (sim_results E sq g S0 r sigma T K ot specs) := by
    rw [h1]
    exact List.sum_nonneg hL
  have hn : (0 : ℚ) < (total_count (sim_results E sq g S0 r sigma T K ot specs) : ℚ) := by
    exact_mod_cast hpos
  have hcs : total_sum (sim_results E sq g S0 r sigma T K ot specs) ^ 2 ≤
      (total_count (sim_results E sq g S0 r sigma T K ot specs) : ℚ) *
        total_sum_sq (sim_results E sq g S0 r sigma T K ot specs) := by
    rw [h1, h2, h3]
    exact list_sq_sum_le _
  have hprice : 0 ≤ (aggregate sq (sim_results E sq g S0 r sigma T K ot specs)).1 := by
    simp only [aggregate]
    exact div_nonneg hsum hn.le
  have hmom : (aggregate sq (sim_results E sq g S0 r sigma T K ot specs)).1 ^ 2 ≤
      total_sum_sq (sim_results E sq g S0 r sigma T K ot specs) /
        (total_count (sim_results E sq g S0 r sigma T K ot specs) : ℚ) := by
    simp only [aggregate]
    rw [div_pow, div_le_div_iff (by positivity) hn]
    nlinarith [hcs, hn]
  refine ⟨hprice, hmom, ?_⟩
  simp only [aggregate]
  refine hsq _ (div_nonneg ?_ hn.le)
  have := hmom
  simp only [aggregate] at this
  linarith

/-- Witness for C6 at a concrete batch collection: one batch of 3 paths with
seed 0, trivial exponential. -/
theorem aggregate_positive_witness :
    0 ≤ (aggregate id (sim_results Eone id gzero 2 0 1 1 1 .call [(3, 0)])).1 ∧
    (aggregate id (sim_results Eone id gzero 2 0 1 1 1 .call [(3, 0)])).1 ^ 2 ≤
      total_sum_sq (sim_results Eone id gzero 2 0 1 1 1 .call [(3, 0)]) /
        (total_count (sim_results Eone id gzero 2 0 1 1 1 .call [(3, 0)]) : ℚ) ∧
    0 ≤ (aggregate id (sim_results Eone id gzero 2 0 1 1 1 .call [(3, 0)])).2 :=
  aggregate_positive Eone id gzero 2 0 1 1 1 .call [(3, 0)]
    (fun x => by norm_num [Eone]) (fun x hx => hx) (by decide)

/-- C7.  Pointwise unbiasedness identity of the importance sampler: for every
draw `z`, the payoff sampled under the shifted drift `(r - sigma^2/2) +
shift*sigma` and weighted by the likelihood ratio
`exp (-shift*sqrt T*z - shift^2*T/2)` equals the plain payoff evaluated at the
translated normal `z + shift*sqrt T` times the standard-normal density ratio
`φ (z + shift*sqrt T) / φ z` — so the shift only re-weights where mass is
sampled and never changes the estimated expectation.  The hypotheses on `E`
and `sq` (exponential homomorphism, non-vanishing, `sqrt T * sqrt T = T`) hold
for the real `exp` and `sqrt` with `T ≥ 0`. -/
theorem importance_sampling_pointwise (E sq : ℚ → ℚ)
    (hE : ∀ a b, E (a + b) = E a * E b) (hne : ∀ x, E x ≠ 0)
    (S0 K T r sigma shift z : ℚ) (hT : sq T * sq T = T) :
    importance_weighted_payoff E sq S0 K T r sigma shift z =
      payoff .call K (terminalPrice E sq S0 r sigma T (z + shift * sq T)) *
        densityQuotient E z (shift * sq T) := by
  unfold importance_weighted_payoff payoff terminalPrice densityQuotient
  have h1 : (r - sigma ^ 2 / 2 + shift * sigma) * T + sigma * sq T * z =
      (r - sigma ^ 2 / 2) * T + sigma * sq T * (z + shift * sq T) := by
    linear_combination (-(sigma * shift)) * hT
  have h2 : -(shift * sq T * z) - shift ^ 2 * T / 2 + -(z ^ 2 / 2) =
      -((z + shift * sq T) ^ 2 / 2) := by
    linear_combination (shift ^ 2 / 2) * hT
  rw [h1]
  congr 1
  rw [← h2, hE]
  rw [mul_div_cancel_right₀ _ (hne (-(z ^ 2 / 2)))]

/-- Witness for C7 at a concrete input (T = 4, stand-in square root 2, trivial
exponential homomorphism). -/
theorem importance_sampling_pointwise_witness :
    importance_weighted_payoff Eone sqTwo 100 100 4 0 1 3 5 =
      payoff .call 100 (terminalPrice Eone sqTwo 100 0 1 4 (5 + 3 * sqTwo 4)) *
        densityQuotient Eone 5 (3 * sqTwo 4) :=
  importance_sampling_pointwise Eone sqTwo (fun a b => by norm_num [Eone])
    (fun x => by norm_num [Eone]) 100 100 4 0 1 3 5 (by norm_num [sqTwo])

/-- A batch result computed, as the spec's aggregation-invariance guarantee
presumes, from a consecutive segment (offset, length) of one fixed global
stream `dp` of per-path discounted payoffs. -/
def segBatch (dp : ℕ → ℚ) (start len : ℕ) : ℚ × ℚ × ℕ :=
  (((List.range len).map (fun i => dp (start + i))).sum,
   ((List.range len).map (fun i => dp (start + i) ^ 2)).sum, len)

/-- Batch results for a partition of the stream into consecutive segments of
the given sizes. -/
def segResults (dp : ℕ → ℚ) : List ℕ → ℕ → List (ℚ × ℚ × ℕ)
  | [], _ => []
  | b :: bs, s => segBatch dp s b :: segResults dp bs (s + b)

/-- The aggregation totals of a segment partition depend only on the total
number of paths, not on the batch boundaries. -/
theorem segResults_totals (dp : ℕ → ℚ) (sizes : List ℕ) (s : ℕ) :
    total_sum (segResults dp sizes s) =
      ((List.range sizes.sum).map (fun i => dp (s + i))).sum ∧
    total_sum_sq (segResults dp sizes s) =
      ((List.range sizes.sum).map (fun i => dp (s + i) ^ 2)).sum ∧
    total_count (segResults dp sizes s) = sizes.sum := by
  induction sizes generalizing s with
  | nil => simp [segResults, total_sum, total_sum_sq, total_count]
  | cons b bs ih =>
    obtain ⟨ih1, ih2, ih3⟩ := ih (s + b)
    refine ⟨?_, ?_, ?_⟩
    · show (segBatch dp s b).1 + total_sum (segResults dp bs (s + b)) = _
      rw [ih1, List.sum_cons, List.range_add, List.map_append, List.sum_append,
        List.map_map]
      congr 1
      refine congrArg List.sum (List.map_congr_left (fun i _ => ?_))
      simp [Nat.add_assoc]
    · show (segBatch dp s b).2.1 + total_sum_sq (segResults dp bs (s + b)) = _
      rw [ih2, List.sum_cons, List.range_add, List.map_append, List.sum_append,
        List.map_map]
      congr 1
      refine congrArg List.sum (List.map_congr_left (fun i _ => ?_))
      simp [Nat.add_assoc]
    · show (segBatch dp s b).2.2 + total_count (segResults dp bs (s + b)) = _
      rw [ih3, List.sum_cons]
      rfl

/-- Aggregation invariance for a fixed draw assignment (the premise of the
spec's section 4.4 guarantee): if every partition reads its batches as
consecutive segments of one fixed stream of per-path discounted payoffs (so
the same `N` draws are used however the work is split), then the aggregated
(price, standard error) is identical to the single-batch result for any batch
sizes summing to `N`. -/
theorem aggregate_partition_invariant (sq : ℚ → ℚ) (dp : ℕ → ℚ)
    (sizes : List ℕ) (N : ℕ) (h : sizes.sum = N) :
    aggregate sq (segResults dp sizes 0) = aggregate sq (segResults dp [N] 0) := by
  obtain ⟨a1, a2, a3⟩ := segResults_totals dp sizes 0
  obtain ⟨b1, b2, b3⟩ := segResults_totals dp [N] 0
  unfold aggregate
  rw [a1, a2, a3, b1, b2, b3]
  simp [h]

/-- Instance of `aggregate_partition_invariant` at a concrete partition:
splitting 5 paths as [2, 3] gives the same estimate as a single batch of 5. -/
theorem aggregate_partition_invariant_witness :
    aggregate id (segResults (fun i => (i : ℚ)) [2, 3] 0) =
      aggregate id (segResults (fun i => (i : ℚ)) [5] 0) :=
  aggregate_partition_invariant id (fun i => (i : ℚ)) [2, 3] 5 (by norm_num)

/-- C1.  The aggregated prices of W = 1 and W = 8 runs cannot be compared on
the code at all: for every OptionSpec passing validation (here the concrete
valid input (S0, K, r, sigma, T) = (100, 100, 0, 2, 1), n_paths = 104), the
pricer raises the worker TypeError — `pool.starmap` passes each batch seed as
a second positional argument, which collides with the `partial`-bound `S0` —
so neither run returns any aggregated price.  The aggregation itself is
partition-invariant over a fixed draw assignment
(`aggregate_partition_invariant`), but no simulation is ever reached. -/
theorem parallel_price_crashes_both_worker_counts :
    price_european_call_parallel Eone id gzero 100 100 0 2 1 104 1 =
      Except.error MCError.typeError ∧
    price_european_call_parallel Eone id gzero 100 100 0 2 1 104 8 =
      Except.error MCError.typeError :=
  ⟨pricer_typeError_of_valid .call Eone id gzero 100 100 0 2 1 104 1
    (by unfold validate_option_params; norm_num) (by decide),
   pricer_typeError_of_valid .call Eone id gzero 100 100 0 2 1 104 8
    (by unfold validate_option_params; norm_num) (by decide)⟩

/-- C2.  The claim that `antithetic_variates_call` and `control_variates_call`
return a (price, standard error, variance-reduction ratio) triple fails on the
code: the plain-MC baseline `price_european_call` returns a single float and
takes (S0, K, r, sigma, T), but both estimators call it as
`monte_carlo_call(S0, K, T, r, sigma, n_paths)` and destructure the float into
two values, which raises TypeError on every input, so the triple (and in
particular the ratio `(std_mc / std_error)^2`) is never produced. -/
theorem variance_reduction_calls_raise_typeError (E sq : ℚ → ℚ) (g : ℕ → ℕ → ℚ)
    (S0 K T r sigma : ℚ) (n_paths : ℕ) (st : RState) :
    (antithetic_variates_call E sq g S0 K T r sigma n_paths st).1 =
      Except.error PyErr.typeError ∧
    (control_variates_call E sq g S0 K T r sigma n_paths st).1 =
      Except.error PyErr.typeError :=
  ⟨antithetic_call_typeError E sq g S0 K T r sigma n_paths st,
   control_call_typeError E sq g S0 K T r sigma n_paths st⟩

/-- C8 counterexample.  At a degenerate input where the control variate has
exactly zero variance (a constant RNG stream makes every terminal price equal),
`control_variates_call` does not surface a distinct degeneracy error: the only
error it ever produces is the generic TypeError of the baseline comparison,
and the beta division is reached unconditionally. -/
theorem control_variates_no_degeneracy_check :
    control_var_c Eone id gzero 100 1 0 1 4 = 0 ∧
    (control_variates_call Eone id gzero 100 50 1 0 1 4 (0, 0)).1 =
      Except.error PyErr.typeError ∧
    PyErr.typeError ≠ PyErr.degeneracy := by
  refine ⟨?_, rfl, by decide⟩
  have h1 : control_ST Eone id gzero 100 1 0 1 4 = List.replicate 4 100 := by
    simp [control_ST, gzero, Eone]
  rw [control_var_c, h1]
  simp [npVar, npMean, List.sum_replicate]
  norm_num

/-- C8 amended.  `control_variates_call` performs no degeneracy detection at
all: `beta = cov_pc / var_c` is computed unconditionally for every input, and
no call ever surfaces a `NumericalDegeneracy`-style error — the only error any
call raises is the generic TypeError of the baseline comparison. -/
theorem control_variates_error_is_generic (E sq : ℚ → ℚ) (g : ℕ → ℕ → ℚ)
    (S0 K T r sigma : ℚ) (n_paths : ℕ) (st : RState) :
    (control_variates_call E sq g S0 K T r sigma n_paths st).1 =
      Except.error PyErr.typeError ∧
    (control_variates_call E sq g S0 K T r sigma n_paths st).1 ≠
      Except.error PyErr.degeneracy := by
  refine ⟨control_call_typeError E sq g S0 K T r sigma n_paths st, ?_⟩
  rw [control_call_typeError E sq g S0 K T r sigma n_paths st]
  intro h
  cases h

/-- C9 counterexample.  For the odd request `n_paths = 101` the estimator
neither rejects nor routes the leftover draw through the plain estimator: only
`2 * (101 / 2) = 100` draws contribute, and the estimation core (and the
error outcome of the full call) are identical to those of the even request
`n_paths = 100` — the 101st path is silently dropped. -/
theorem antithetic_odd_path_dropped :
    antithetic_draws_used 101 = 100 ∧ (100 : ℕ) ≠ 101 ∧
    antithetic_core Eone id gzero 100 100 1 0 1 101 (0, 0) =
      antithetic_core Eone id gzero 100 100 1 0 1 100 (0, 0) ∧
    (antithetic_variates_call Eone id gzero 100 100 1 0 1 101 (0, 0)).1 =
      (antithetic_variates_call Eone id gzero 100 100 1 0 1 100 (0, 0)).1 := by
  refine ⟨rfl, by decide, antithetic_core_div Eone id gzero 100 100 1 0 1 101 100 rfl (0, 0), rfl⟩

/-- C9 amended.  For every odd `n_paths = 2*k+1`, `antithetic_variates_call`
silently drops the leftover draw: it draws `n_paths // 2 = k` normals, uses
`2*k` paths for the price, and its estimation core behaves identically to the
even request `2*k`; no rejection and no plain-estimator routing occurs. -/
theorem antithetic_odd_equals_even (E sq : ℚ → ℚ) (g : ℕ → ℕ → ℚ)
    (S0 K T r sigma : ℚ) (k : ℕ) (st : RState) :
    antithetic_draws_used (2 * k + 1) = 2 * k ∧
    antithetic_core E sq g S0 K T r sigma (2 * k + 1) st =
      antithetic_core E sq g S0 K T r sigma (2 * k) st := by
  constructor
  · unfold antithetic_draws_used
    omega
  · exact antithetic_core_div E sq g S0 K T r sigma (2 * k + 1) (2 * k) (by omega) st

/-- C10.  Every variance-reduction estimator reseeds the global NumPy RNG with
the constant 42 at entry: the result (output and final RNG state) of each is
completely independent of the incoming global state, `importance_sampling_call`
leaves the state at (seed 42, `n_paths` draws consumed), and the calls mutate
the global state (there is a state the antithetic call does not preserve). -/
theorem variance_reduction_reseeds_globally (E sq : ℚ → ℚ) (g : ℕ → ℕ → ℚ)
    (S0 K T r sigma shift : ℚ) (n_paths : ℕ) (st st' : RState) :
    antithetic_variates_call E sq g S0 K T r sigma n_paths st =
      antithetic_variates_call E sq g S0 K T r sigma n_paths st' ∧
    control_variates_call E sq g S0 K T r sigma n_paths st =
      control_variates_call E sq g S0 K T r sigma n_paths st' ∧
    importance_sampling_call E sq g S0 K T r sigma n_paths shift st =
      importance_sampling_call E sq g S0 K T r sigma n_paths shift st' ∧
    (importance_sampling_call E sq g S0 K T r sigma n_paths shift st).2 = (42, n_paths) ∧
    ∃ s0 : RState, (antithetic_variates_call E sq g S0 K T r sigma n_paths s0).2 ≠ s0 := by
  refine ⟨rfl, rfl, rfl, ?_, ?_⟩
  · show (42, 0 + n_paths) = (42, n_paths)
    rw [Nat.zero_add]
  · refine ⟨((antithetic_variates_call E sq g S0 K T r sigma n_paths (0, 0)).2.1 + 1,
      (antithetic_variates_call E sq g S0 K T r sigma n_paths (0, 0)).2.2), fun h => ?_⟩
    have h1 := congrArg Prod.fst h
    simp only [antithetic_state_independent E sq g S0 K T r sigma n_paths _ (0, 0)] at h1
    omega

end OptionMC
